import Mathlib

set_option linter.unusedVariables false

/-!
# Verification of the 2D Localization SIR Particle Filter

A shallow embedding of `src/python/sandbox/localization_2d.py` (the SIR
particle-filter step `localization_2d_pf`) over exact rationals, together
with spec-modelled versions of the collaborators imported from modules that
are not part of the source tree (`unicycle_model_2d.py`, `particle_filter.py`).

Conventions of the embedding:
* `numpy` floating-point scalars become `ℚ`; exceptions raised by `numpy`
  (`ZeroDivisionError` in `np.average`, shape errors) become `none` of an
  `Option` result.
* The pseudo-random sources hidden inside the Python collaborators are made
  explicit arguments (a noise list for the transition model, the offset `u0`
  for systematic resampling), matching the spec's "deterministic given a
  noise source".
* `transition_fcn` and `likelihood_fcn` are higher-order arguments of
  `localization_2d_pf`, exactly as in the Python signature.
-/

namespace PF2D

/-- A particle: one hypothesized state vector (x, y, θ) — planar position and
heading. -/
structure State2D where
  x : ℚ
  y : ℚ
  θ : ℚ
deriving DecidableEq, Repr

/-- `np.mod a b` on nonnegative integers: `numpy` returns `0` (with only a
`RuntimeWarning`) when the divisor is `0`, unlike Lean's `a % 0 = a`. -/
def npMod (a b : Nat) : Nat :=
  if b = 0 then 0 else a % b

/-- `np.average(particles, axis=0, weights=weights)`: the per-coordinate
weighted mean.  `numpy` raises (here: `none`) when the lengths mismatch
(`ValueError`) or when the weights sum to zero (`ZeroDivisionError`). -/
def npAverage (particles : List State2D) (weights : List ℚ) : Option State2D :=
  if particles.length ≠ weights.length then none
  else if weights.sum = 0 then none
  else
    some ⟨((particles.zip weights).map (fun pw => pw.2 * pw.1.x)).sum / weights.sum,
          ((particles.zip weights).map (fun pw => pw.2 * pw.1.y)).sum / weights.sum,
          ((particles.zip weights).map (fun pw => pw.2 * pw.1.θ)).sum / weights.sum⟩

/-- Effective sample size, Arulampalam Eqn. (51), as in the source:
`Neff = 1 / np.sum(new_weights ** 2)`. -/
def Neff (w : List ℚ) : ℚ :=
  1 / (w.map (fun x => x ^ 2)).sum

/-- Modelled from the spec: the landmark table returned by `get_landmarks`
(defined in `unicycle_model_2d.py`, absent from the source tree).  The spec
says only that it is an immutable, externally supplied ordered collection of
fixed 2D positions; the concrete coordinates are unknowable from the source
and are never inspected by any claim (the table is only passed through to the
likelihood model), so an arbitrary fixed table stands in. -/
def get_landmarks : List (ℚ × ℚ) :=
  [(5, 5), (-5, 5), (5, -5), (-5, -5)]

/-- Modelled from the spec: the normalization step of the likelihood model
(§4.2): "Normalize the resulting vector so weights sum to 1 (if all
likelihoods underflow to zero, fall back to uniform weights)". -/
def normalizeWeights (raw : List ℚ) : List ℚ :=
  if ∀ x ∈ raw, x = 0 then List.replicate raw.length ((1 : ℚ) / raw.length)
  else raw.map (fun x => x / raw.sum)

/-- Modelled from the spec: `likelihood_fcn_2d` (defined in
`unicycle_model_2d.py`, absent from the source tree).  Per §4.2 it computes,
for each particle, an unnormalized likelihood from the Gaussian observation
model (`exp(−½·Σ residual²/σ²)` over the landmarks) and then normalizes.  The
Gaussian kernel is transcendental (exp, sqrt), so it is kept as an explicit
function argument `kernel` (a non-negative score of a particle against the
landmark table and the measurement); the map over particles and the
normalization/underflow fallback follow the spec's words. -/
def likelihood_fcn_2d (kernel : State2D → List (ℚ × ℚ) → List (ℚ × ℚ) → ℚ)
    (particles : List State2D) (landmarks : List (ℚ × ℚ))
    (measurement : List (ℚ × ℚ)) : List ℚ :=
  normalizeWeights (particles.map (fun p => kernel p landmarks measurement))

/-- Modelled from the spec: `transition_fcn_2d` (defined in
`unicycle_model_2d.py`, absent from the source tree).  Per §4.1, each particle
moves by `x' = x + v·cos(θ)·Δt + εx`, `y' = y + v·sin(θ)·Δt + εy`,
`θ' = wrap(θ + ω·Δt + εθ)` with the noise ε drawn from `N(0, Q)`.  The
transcendental `cos`/`sin`/`wrap` are explicit function arguments and the
Gaussian draws are an explicit per-particle list `noise` (the spec:
"deterministic given a noise source"); the covariance argument `Q` is what the
hidden sampler would consume and is otherwise unused in this explicit-noise
form. -/
def transition_fcn_2d (cosF sinF wrapF : ℚ → ℚ) (noise : List (ℚ × ℚ × ℚ))
    (particles : List State2D) (linear_vel angular_vel dt : ℚ)
    (Q : ℚ × ℚ × ℚ) : List State2D :=
  (particles.zip noise).map (fun pe =>
    ⟨pe.1.x + linear_vel * cosF pe.1.θ * dt + pe.2.1,
     pe.1.y + linear_vel * sinF pe.1.θ * dt + pe.2.2.1,
     wrapF (pe.1.θ + angular_vel * dt + pe.2.2.2)⟩)

/-- Running cumulative sums of a weight list, starting from `acc`. -/
def cumsum (acc : ℚ) : List ℚ → List ℚ
  | [] => []
  | w :: ws => (acc + w) :: cumsum (acc + w) ws

/-- Index of the cumulative-weight bracket containing `u`: the first position
whose cumulative sum exceeds `u` (the length of the list if none does). -/
def selectIdx (u : ℚ) : List ℚ → Nat
  | [] => 0
  | c :: cs => if u < c then 0 else selectIdx u cs + 1

/-- Modelled from the spec: `systematic_resample` (defined in
`particle_filter.py`, absent from the source tree).  Per §4.3: draw one
uniform offset `u0 ∈ [0, 1/N)` (made an explicit argument here), generate the
evenly spaced points `uⱼ = u0 + j/N`, walk the cumulative weight sum and
assign each `uⱼ` to the particle whose cumulative-weight bracket contains it;
reset the weights to uniform `1/N`. -/
def systematic_resample (particles : List State2D) (weights : List ℚ)
    (u0 : ℚ) : List State2D × List ℚ :=
  let N := particles.length
  let cums := cumsum 0 weights
  let points := (List.range N).map (fun (j : Nat) => u0 + (j : ℚ) / (N : ℚ))
  (points.map (fun u => particles.getD (selectIdx u cums) ⟨0, 0, 0⟩),
   List.replicate N ((1 : ℚ) / (N : ℚ)))

/-- The SIR-PF step `localization_2d_pf` of
`src/python/sandbox/localization_2d.py` (lines 28–91), embedded directly:

1. prediction via `transition_fcn`,
2. `state = np.average(new_particles, axis=0, weights=weights)` — computed at
   this point of the source, i.e. with the *input* weights,
3. if `np.mod(time_step, skip) == 0`: reweight via `likelihood_fcn`, compute
   `Neff`, and resample when `Neff < neff_thres`; otherwise pass the input
   weights through.

The Python defaults are `neff_thres=50`, `skip=100`; `u0` is the offset the
hidden random source inside `systematic_resample` would draw.  A `numpy`
exception anywhere in the step surfaces as `none`. -/
def localization_2d_pf (particles : List State2D) (weights : List ℚ)
    (measurement : List (ℚ × ℚ)) (linear_vel angular_vel dt : ℚ)
    (process_noise_cov : ℚ × ℚ × ℚ) (time_step : Nat)
    (neff_thres : ℚ) (skip : Nat) (u0 : ℚ)
    (transition_fcn : List State2D → ℚ → ℚ → ℚ → ℚ × ℚ × ℚ → List State2D)
    (likelihood_fcn : List State2D → List (ℚ × ℚ) → List (ℚ × ℚ) → List ℚ) :
    Option (List State2D × List ℚ × State2D) :=
  let Q := process_noise_cov
  let new_particles := transition_fcn particles linear_vel angular_vel dt Q
  match npAverage new_particles weights with
  | none => none
  | some state =>
    if npMod time_step skip = 0 then
      let landmarks := get_landmarks
      let new_weights := likelihood_fcn new_particles landmarks measurement
      if Neff new_weights < neff_thres then
        let resampled := systematic_resample new_particles new_weights u0
        some (resampled.1, resampled.2, state)
      else
        some (new_particles, new_weights, state)
    else
      some (new_particles, weights, state)

/-! ## Auxiliary lemmas on list sums and indexing -/

theorem all_zero_of_sum_eq_zero {l : List ℚ} (h0 : ∀ x ∈ l, 0 ≤ x)
    (hs : l.sum = 0) : ∀ x ∈ l, x = 0 := by
  induction l with
  | nil => intro x hx; cases hx
  | cons a l ih =>
    have ha : 0 ≤ a := h0 a (List.mem_cons_self a l)
    have hl : ∀ x ∈ l, 0 ≤ x := fun x hx => h0 x (List.mem_cons_of_mem a hx)
    have hls : 0 ≤ l.sum := List.sum_nonneg hl
    rw [List.sum_cons] at hs
    have ha0 : a = 0 := by linarith
    have hl0 : l.sum = 0 := by linarith
    intro x hx
    rcases List.mem_cons.mp hx with h | h
    · exact h ▸ ha0
    · exact ih hl hl0 x h

theorem sum_map_div (l : List ℚ) (s : ℚ) :
    (l.map (fun x => x / s)).sum = l.sum / s := by
  induction l with
  | nil => simp
  | cons a l ih => simp [ih, add_div]

theorem sum_sq_le_sq_sum {l : List ℚ} (h : ∀ x ∈ l, 0 ≤ x) :
    (l.map (fun x => x ^ 2)).sum ≤ l.sum ^ 2 := by
  induction l with
  | nil => simp
  | cons a l ih =>
    have ha : 0 ≤ a := h a (List.mem_cons_self a l)
    have hl : ∀ x ∈ l, 0 ≤ x := fun x hx => h x (List.mem_cons_of_mem a hx)
    have hls : 0 ≤ l.sum := List.sum_nonneg hl
    have := ih hl
    simp only [List.map_cons, List.sum_cons]
    nlinarith [mul_nonneg ha hls]

theorem sum_sq_nonneg (l : List ℚ) : 0 ≤ (l.map (fun x => x ^ 2)).sum :=
  List.sum_nonneg (by
    intro x hx
    rcases List.mem_map.mp hx with ⟨a, _, rfl⟩
    positivity)

theorem centered_sq_sum (l : List ℚ) (c : ℚ) :
    (l.map (fun x => (x - c) ^ 2)).sum =
      (l.map (fun x => x ^ 2)).sum - 2 * c * l.sum + (l.length : ℚ) * c ^ 2 := by
  induction l with
  | nil => simp
  | cons a l ih =>
    simp only [List.map_cons, List.sum_cons, List.length_cons, ih]
    push_cast
    ring

theorem cumsum_length (a : ℚ) (l : List ℚ) : (cumsum a l).length = l.length := by
  induction l generalizing a with
  | nil => rfl
  | cons w ws ih => simp [cumsum, ih]

theorem selectIdx_lt_length {l : List ℚ} (a u : ℚ) (hne : l ≠ [])
    (hu : u < a + l.sum) : selectIdx u (cumsum a l) < l.length := by
  induction l generalizing a with
  | nil => exact absurd rfl hne
  | cons w ws ih =>
    simp only [cumsum, selectIdx, List.length_cons]
    by_cases hcase : u < a + w
    · simp [hcase]
    · rw [if_neg hcase]
      rcases List.eq_nil_or_concat ws with hnil | _
      · subst hnil
        rw [List.sum_cons, List.sum_nil, add_zero] at hu
        exact absurd hu hcase
      · have hws : ws ≠ [] := by
          intro hcontra
          subst hcontra
          rw [List.sum_cons, List.sum_nil, add_zero] at hu
          exact hcase hu
        have : u < (a + w) + ws.sum := by
          rw [List.sum_cons] at hu
          linarith
        exact Nat.succ_lt_succ (ih (a + w) hws this)

theorem getD_mem_of_lt {α : Type} {l : List α} {n : Nat} (d : α)
    (h : n < l.length) : l.getD n d ∈ l := by
  induction l generalizing n with
  | nil => cases h
  | cons a l ih =>
    cases n with
    | zero => exact List.mem_cons_self a l
    | succ m =>
      exact List.mem_cons_of_mem a (ih (Nat.lt_of_succ_lt_succ h))

theorem normalizeWeights_nonneg {raw : List ℚ} (h : ∀ x ∈ raw, 0 ≤ x) :
    ∀ w ∈ normalizeWeights raw, 0 ≤ w := by
  intro w hw
  unfold normalizeWeights at hw
  by_cases hz : ∀ x ∈ raw, x = 0
  · rw [if_pos hz] at hw
    rw [List.eq_of_mem_replicate hw]
    positivity
  · rw [if_neg hz] at hw
    rcases List.mem_map.mp hw with ⟨a, ha, rfl⟩
    have hs : 0 ≤ raw.sum := List.sum_nonneg h
    exact div_nonneg (h a ha) hs

theorem normalizeWeights_sum_one {raw : List ℚ} (h : ∀ x ∈ raw, 0 ≤ x)
    (hne : raw ≠ []) : (normalizeWeights raw).sum = 1 := by
  unfold normalizeWeights
  by_cases hz : ∀ x ∈ raw, x = 0
  · rw [if_pos hz, List.sum_replicate, nsmul_eq_mul]
    have hlen : (raw.length : ℚ) ≠ 0 := by
      have := List.length_pos.mpr hne
      positivity
    field_simp
  · rw [if_neg hz, sum_map_div]
    have hs0 : raw.sum ≠ 0 := by
      intro hcontra
      exact hz (all_zero_of_sum_eq_zero h hcontra)
    field_simp

theorem normalizeWeights_length (raw : List ℚ) :
    (normalizeWeights raw).length = raw.length := by
  unfold normalizeWeights
  by_cases hz : ∀ x ∈ raw, x = 0
  · rw [if_pos hz, List.length_replicate]
  · rw [if_neg hz, List.length_map]

/-! ## Branch lemmas for the orchestrator step -/

theorem npAverage_eq_none_of_sum_zero (particles : List State2D)
    {weights : List ℚ} (hs : weights.sum = 0) :
    npAverage particles weights = none := by
  unfold npAverage
  by_cases hl : particles.length ≠ weights.length
  · rw [if_pos hl]
  · rw [if_neg hl, if_pos hs]

theorem localization_step_none (particles : List State2D) (weights : List ℚ)
    (measurement : List (ℚ × ℚ)) (linear_vel angular_vel dt : ℚ)
    (Q : ℚ × ℚ × ℚ) (time_step : Nat) (neff_thres : ℚ) (skip : Nat) (u0 : ℚ)
    (tf : List State2D → ℚ → ℚ → ℚ → ℚ × ℚ × ℚ → List State2D)
    (lf : List State2D → List (ℚ × ℚ) → List (ℚ × ℚ) → List ℚ)
    (h_avg : npAverage (tf particles linear_vel angular_vel dt Q) weights = none) :
    localization_2d_pf particles weights measurement linear_vel angular_vel dt
      Q time_step neff_thres skip u0 tf lf = none := by
  simp only [localization_2d_pf, h_avg]

theorem localization_step_noupdate (particles : List State2D)
    (weights : List ℚ) (measurement : List (ℚ × ℚ))
    (linear_vel angular_vel dt : ℚ) (Q : ℚ × ℚ × ℚ) (time_step : Nat)
    (neff_thres : ℚ) (skip : Nat) (u0 : ℚ)
    (tf : List State2D → ℚ → ℚ → ℚ → ℚ × ℚ × ℚ → List State2D)
    (lf : List State2D → List (ℚ × ℚ) → List (ℚ × ℚ) → List ℚ)
    (st : State2D) (h_k : npMod time_step skip ≠ 0)
    (h_avg : npAverage (tf particles linear_vel angular_vel dt Q) weights = some st) :
    localization_2d_pf particles weights measurement linear_vel angular_vel dt
      Q time_step neff_thres skip u0 tf lf =
      some (tf particles linear_vel angular_vel dt Q, weights, st) := by
  simp only [localization_2d_pf, h_avg, h_k, if_false]

theorem localization_step_update_pass (particles : List State2D)
    (weights : List ℚ) (measurement : List (ℚ × ℚ))
    (linear_vel angular_vel dt : ℚ) (Q : ℚ × ℚ × ℚ) (time_step : Nat)
    (neff_thres : ℚ) (skip : Nat) (u0 : ℚ)
    (tf : List State2D → ℚ → ℚ → ℚ → ℚ × ℚ × ℚ → List State2D)
    (lf : List State2D → List (ℚ × ℚ) → List (ℚ × ℚ) → List ℚ)
    (st : State2D) (h_k : npMod time_step skip = 0)
    (h_avg : npAverage (tf particles linear_vel angular_vel dt Q) weights = some st)
    (h_neff : ¬ Neff (lf (tf particles linear_vel angular_vel dt Q)
      get_landmarks measurement) < neff_thres) :
    localization_2d_pf particles weights measurement linear_vel angular_vel dt
      Q time_step neff_thres skip u0 tf lf =
      some (tf particles linear_vel angular_vel dt Q,
        lf (tf particles linear_vel angular_vel dt Q) get_landmarks measurement,
        st) := by
  simp only [localization_2d_pf, h_avg, h_k, h_neff, if_true, if_false]

theorem localization_step_update_resample (particles : List State2D)
    (weights : List ℚ) (measurement : List (ℚ × ℚ))
    (linear_vel angular_vel dt : ℚ) (Q : ℚ × ℚ × ℚ) (time_step : Nat)
    (neff_thres : ℚ) (skip : Nat) (u0 : ℚ)
    (tf : List State2D → ℚ → ℚ → ℚ → ℚ × ℚ × ℚ → List State2D)
    (lf : List State2D → List (ℚ × ℚ) → List (ℚ × ℚ) → List ℚ)
    (st : State2D) (h_k : npMod time_step skip = 0)
    (h_avg : npAverage (tf particles linear_vel angular_vel dt Q) weights = some st)
    (h_neff : Neff (lf (tf particles linear_vel angular_vel dt Q)
      get_landmarks measurement) < neff_thres) :
    localization_2d_pf particles weights measurement linear_vel angular_vel dt
      Q time_step neff_thres skip u0 tf lf =
      some ((systematic_resample (tf particles linear_vel angular_vel dt Q)
          (lf (tf particles linear_vel angular_vel dt Q) get_landmarks
            measurement) u0).1,
        (systematic_resample (tf particles linear_vel angular_vel dt Q)
          (lf (tf particles linear_vel angular_vel dt Q) get_landmarks
            measurement) u0).2,
        st) := by
  simp only [localization_2d_pf, h_avg, h_k, h_neff, if_true]

/-! ## Claims -/

/-- Claim C3: the effective sample size is computed as
`Neff = 1 / Σ wᵢ²`; for every non-negative weight vector of length `N`
summing to `1`, `Neff` lies in `[1, N]`, equals `N` exactly when the weights
are uniform, and equals `1` when a single particle holds all the mass. -/
theorem C3_neff_bounds (w : List ℚ) (hw : ∀ x ∈ w, 0 ≤ x) (hs : w.sum = 1) :
    Neff w = 1 / (w.map (fun x => x ^ 2)).sum ∧
    1 ≤ Neff w ∧ Neff w ≤ (w.length : ℚ) ∧
    (Neff w = (w.length : ℚ) ↔ ∀ x ∈ w, x = 1 / (w.length : ℚ)) ∧
    (∀ pre post, (∀ x ∈ pre, x = 0) → (∀ x ∈ post, x = 0) →
      w = pre ++ 1 :: post → Neff w = 1) := by
  have hne : w ≠ [] := by
    intro hcontra
    rw [hcontra, List.sum_nil] at hs
    exact one_ne_zero hs.symm
  have hNpos : 0 < (w.length : ℚ) := by
    have := List.length_pos.mpr hne
    positivity
  set S2 := (w.map (fun x => x ^ 2)).sum with hS2def
  have hS2nonneg : 0 ≤ S2 := sum_sq_nonneg w
  have hS2le : S2 ≤ 1 := by
    have := sum_sq_le_sq_sum hw
    rw [hs] at this
    simpa using this
  have hS2pos : 0 < S2 := by
    rcases lt_or_eq_of_le hS2nonneg with h | h
    · exact h
    · exfalso
      have hz : ∀ y ∈ w.map (fun x => x ^ 2), y = 0 := by
        apply all_zero_of_sum_eq_zero
        · intro y hy
          rcases List.mem_map.mp hy with ⟨a, _, rfl⟩
          positivity
        · exact h.symm
      have hall : ∀ x ∈ w, x = 0 := by
        intro x hx
        have := hz (x ^ 2) (List.mem_map.mpr ⟨x, hx, rfl⟩)
        exact pow_eq_zero_iff (two_ne_zero) |>.mp this
      rw [List.sum_eq_zero hall] at hs
      exact one_ne_zero hs.symm
  have hcentered : 0 ≤ S2 - 1 / (w.length : ℚ) := by
    have h0 : 0 ≤ (w.map (fun x => (x - 1 / (w.length : ℚ)) ^ 2)).sum := by
      apply List.sum_nonneg
      intro y hy
      rcases List.mem_map.mp hy with ⟨a, _, rfl⟩
      positivity
    rw [centered_sq_sum w (1 / (w.length : ℚ)), hs] at h0
    have hexp : S2 - 2 * (1 / (w.length : ℚ)) * 1 +
        (w.length : ℚ) * (1 / (w.length : ℚ)) ^ 2 = S2 - 1 / (w.length : ℚ) := by
      field_simp
      ring
    rw [hexp] at h0
    exact h0
  have hNeff : Neff w = 1 / S2 := rfl
  refine ⟨rfl, ?_, ?_, ?_, ?_⟩
  · rw [hNeff, le_div_iff₀ hS2pos, one_mul]
    exact hS2le
  · rw [hNeff, div_le_iff₀ hS2pos]
    have h1N : 1 / (w.length : ℚ) ≤ S2 := by linarith
    calc (1 : ℚ) = (w.length : ℚ) * (1 / (w.length : ℚ)) := by field_simp
      _ ≤ (w.length : ℚ) * S2 := by
          exact mul_le_mul_of_nonneg_left h1N (le_of_lt hNpos)
  · constructor
    · intro heq
      rw [hNeff] at heq
      have hS2eq : S2 = 1 / (w.length : ℚ) := by
        rw [div_eq_iff (ne_of_gt hS2pos)] at heq
        rw [eq_div_iff (ne_of_gt hNpos)]
        nlinarith [heq]
      have hzero : (w.map (fun x => (x - 1 / (w.length : ℚ)) ^ 2)).sum = 0 := by
        rw [centered_sq_sum w (1 / (w.length : ℚ)), hs, ← hS2def, hS2eq]
        field_simp
        ring
      have hallz : ∀ y ∈ w.map (fun x => (x - 1 / (w.length : ℚ)) ^ 2), y = 0 := by
        apply all_zero_of_sum_eq_zero
        · intro y hy
          rcases List.mem_map.mp hy with ⟨a, _, rfl⟩
          positivity
        · exact hzero
      intro x hx
      have := hallz ((x - 1 / (w.length : ℚ)) ^ 2) (List.mem_map.mpr ⟨x, hx, rfl⟩)
      have := pow_eq_zero_iff (two_ne_zero) |>.mp this
      linarith [sub_eq_zero.mp this]
    · intro hunif
      have hrep : w = List.replicate w.length (1 / (w.length : ℚ)) :=
        List.eq_replicate_iff.mpr ⟨rfl, hunif⟩
      rw [hNeff]
      have hS2eq : S2 = 1 / (w.length : ℚ) := by
        rw [hS2def]
        conv_lhs => rw [hrep]
        rw [List.map_replicate, List.sum_replicate, nsmul_eq_mul]
        field_simp
        ring
      rw [hS2eq, one_div_one_div]
  · intro pre post hpre hpost hsplit
    rw [hNeff]
    have hS2eq : S2 = 1 := by
      rw [hS2def, hsplit, List.map_append, List.sum_append, List.map_cons,
        List.sum_cons]
      have h1 : (pre.map (fun x => x ^ 2)).sum = 0 := by
        apply List.sum_eq_zero
        intro y hy
        rcases List.mem_map.mp hy with ⟨a, ha, rfl⟩
        rw [hpre a ha]
        norm_num
      have h2 : (post.map (fun x => x ^ 2)).sum = 0 := by
        apply List.sum_eq_zero
        intro y hy
        rcases List.mem_map.mp hy with ⟨a, ha, rfl⟩
        rw [hpost a ha]
        norm_num
      rw [h1, h2]
      norm_num
    rw [hS2eq]
    norm_num

/-- Claim C1, counterexample: on a measurement-update step the reported
estimate is not the weighted mean of the end-of-step particle set under the
end-of-step weights.  Concretely, with two particles at x = 0 and x = 2,
input weights (1/2, 1/2), an identity transition, a likelihood returning
(3/4, 1/4) and a threshold low enough that no resampling occurs, the step
reports ⟨1, 0, 0⟩ (the mean under the *input* weights) while the weighted
mean of the returned particles under the returned weights is ⟨1/2, 0, 0⟩. -/
theorem C1_estimate_counterexample :
    localization_2d_pf [⟨0, 0, 0⟩, ⟨2, 0, 0⟩] [1/2, 1/2] [] 0 0 0 (0, 0, 0)
        100 1 100 0 (fun ps _ _ _ _ => ps) (fun _ _ _ => [3/4, 1/4]) =
      some ([⟨0, 0, 0⟩, ⟨2, 0, 0⟩], [3/4, 1/4], ⟨1, 0, 0⟩) ∧
    npAverage [⟨0, 0, 0⟩, ⟨2, 0, 0⟩] [3/4, 1/4] = some ⟨1/2, 0, 0⟩ ∧
    (⟨1, 0, 0⟩ : State2D) ≠ ⟨1/2, 0, 0⟩ := by
  refine ⟨?_, ?_, ?_⟩
  · norm_num [localization_2d_pf, npAverage, npMod, Neff]
  · norm_num [npAverage]
  · simp only [ne_eq, State2D.mk.injEq, not_and]
    norm_num

/-- Claim C1, amended: the state estimate returned by `localization_2d_pf` is
the weighted mean of the *predicted* particle set (after the transition, before
any reweighting or resampling) computed with the *input* weight vector (the
weights of step k).  On steps without a measurement update these coincide with
the end-of-step set and weights, but on update steps they need not. -/
theorem C1_estimate_amended (particles : List State2D) (weights : List ℚ)
    (measurement : List (ℚ × ℚ)) (linear_vel angular_vel dt : ℚ)
    (Q : ℚ × ℚ × ℚ) (time_step : Nat) (neff_thres : ℚ) (skip : Nat) (u0 : ℚ)
    (tf : List State2D → ℚ → ℚ → ℚ → ℚ × ℚ × ℚ → List State2D)
    (lf : List State2D → List (ℚ × ℚ) → List (ℚ × ℚ) → List ℚ)
    (out_particles : List State2D) (out_weights : List ℚ) (st : State2D)
    (h : localization_2d_pf particles weights measurement linear_vel
      angular_vel dt Q time_step neff_thres skip u0 tf lf =
      some (out_particles, out_weights, st)) :
    npAverage (tf particles linear_vel angular_vel dt Q) weights = some st := by
  rcases h_avg : npAverage (tf particles linear_vel angular_vel dt Q) weights
      with _ | st'
  · rw [localization_step_none particles weights measurement linear_vel
      angular_vel dt Q time_step neff_thres skip u0 tf lf h_avg] at h
    cases h
  · by_cases h_k : npMod time_step skip = 0
    · by_cases h_neff : Neff (lf (tf particles linear_vel angular_vel dt Q)
        get_landmarks measurement) < neff_thres
      · rw [localization_step_update_resample particles weights measurement
          linear_vel angular_vel dt Q time_step neff_thres skip u0 tf lf st'
          h_k h_avg h_neff] at h
        simp only [Option.some.injEq, Prod.mk.injEq] at h
        rw [← h.2.2]
      · rw [localization_step_update_pass particles weights measurement
          linear_vel angular_vel dt Q time_step neff_thres skip u0 tf lf st'
          h_k h_avg h_neff] at h
        simp only [Option.some.injEq, Prod.mk.injEq] at h
        rw [← h.2.2]
    · rw [localization_step_noupdate particles weights measurement linear_vel
        angular_vel dt Q time_step neff_thres skip u0 tf lf st' h_k h_avg] at h
      simp only [Option.some.injEq, Prod.mk.injEq] at h
      rw [← h.2.2]

/-- Witness for the amended C1 at a concrete one-particle step. -/
theorem C1_estimate_amended_witness :
    localization_2d_pf [(⟨0, 0, 0⟩ : State2D)] [(1 : ℚ)] [] 0 0 1 (0, 0, 0) 1
        50 100 0 (fun ps _ _ _ _ => ps) (fun _ _ _ => []) =
      some ([(⟨0, 0, 0⟩ : State2D)], [(1 : ℚ)], ⟨0, 0, 0⟩) ∧
    npAverage [(⟨0, 0, 0⟩ : State2D)] [(1 : ℚ)] = some ⟨0, 0, 0⟩ := by
  have h : localization_2d_pf [(⟨0, 0, 0⟩ : State2D)] [(1 : ℚ)] [] 0 0 1
      (0, 0, 0) 1 50 100 0 (fun ps _ _ _ _ => ps) (fun _ _ _ => []) =
      some ([(⟨0, 0, 0⟩ : State2D)], [(1 : ℚ)], ⟨0, 0, 0⟩) := by
    norm_num [localization_2d_pf, npAverage, npMod]
  exact ⟨h, C1_estimate_amended [(⟨0, 0, 0⟩ : State2D)] [(1 : ℚ)] [] 0 0 1
    (0, 0, 0) 1 50 100 0 (fun ps _ _ _ _ => ps) (fun _ _ _ => [])
    [(⟨0, 0, 0⟩ : State2D)] [(1 : ℚ)] ⟨0, 0, 0⟩ h⟩

/-- Claim C2, counterexample: with `skip = 100` and a time step that is not a
multiple of 100, the weight vector is indeed returned unchanged, but the
particle set need not differ from the input: with zero linear and angular
velocity and zero process-noise draws, the spec's transition formula returns
every particle unchanged (the instantiated `cosF`/`sinF`/`wrapF` agree with
cos/sin/wrap at θ = 0, the only evaluated point). -/
theorem C2_skip_counterexample :
    localization_2d_pf [⟨0, 0, 0⟩] [1] [] 0 0 1 (0, 0, 0) 1 50 100 0
        (transition_fcn_2d (fun _ => 1) (fun _ => 0) (fun t => t) [(0, 0, 0)])
        (likelihood_fcn_2d (fun _ _ _ => 1)) =
      some ([⟨0, 0, 0⟩], [1], ⟨0, 0, 0⟩) := by
  norm_num [localization_2d_pf, npAverage, npMod, transition_fcn_2d]

/-- Claim C2, amended: with `skip = 100` and a time step that is not a
multiple of 100, the step returns the input weight vector unchanged (the very
same values) and returns as particle set exactly the output of the prediction
step applied to the input particles — which generally differs from the input
when the velocities or the noise draws are nonzero, but need not. -/
theorem C2_skip_amended (particles : List State2D) (weights : List ℚ)
    (measurement : List (ℚ × ℚ)) (linear_vel angular_vel dt : ℚ)
    (Q : ℚ × ℚ × ℚ) (time_step : Nat) (neff_thres : ℚ) (u0 : ℚ)
    (tf : List State2D → ℚ → ℚ → ℚ → ℚ × ℚ × ℚ → List State2D)
    (lf : List State2D → List (ℚ × ℚ) → List (ℚ × ℚ) → List ℚ)
    (st : State2D) (h_k : npMod time_step 100 ≠ 0)
    (h_avg : npAverage (tf particles linear_vel angular_vel dt Q) weights =
      some st) :
    localization_2d_pf particles weights measurement linear_vel angular_vel dt
      Q time_step neff_thres 100 u0 tf lf =
      some (tf particles linear_vel angular_vel dt Q, weights, st) :=
  localization_step_noupdate particles weights measurement linear_vel
    angular_vel dt Q time_step neff_thres 100 u0 tf lf st h_k h_avg

/-- Witness for the amended C2 at a concrete one-particle step. -/
theorem C2_skip_amended_witness :
    npMod 1 100 ≠ 0 ∧
    localization_2d_pf [(⟨0, 0, 0⟩ : State2D)] [(1 : ℚ)] [] 0 0 1 (0, 0, 0) 1
        50 100 0 (fun ps _ _ _ _ => ps) (fun _ _ _ => []) =
      some ([(⟨0, 0, 0⟩ : State2D)], [(1 : ℚ)], ⟨0, 0, 0⟩) := by
  refine ⟨by norm_num [npMod], ?_⟩
  exact C2_skip_amended [(⟨0, 0, 0⟩ : State2D)] [(1 : ℚ)] [] 0 0 1 (0, 0, 0) 1
    50 0 (fun ps _ _ _ _ => ps) (fun _ _ _ => []) ⟨0, 0, 0⟩
    (by norm_num [npMod]) (by norm_num [npAverage])

/-- Witness for C3 at the uniform two-particle weight vector. -/
theorem C3_neff_bounds_witness :
    (∀ x ∈ [(1 : ℚ)/2, 1/2], 0 ≤ x) ∧ [(1 : ℚ)/2, 1/2].sum = 1 ∧
      1 ≤ Neff [(1 : ℚ)/2, 1/2] := by
  refine ⟨by norm_num, by norm_num, ?_⟩
  exact (C3_neff_bounds [(1 : ℚ)/2, 1/2] (by norm_num) (by norm_num)).2.1

/-- Claim C4: for every particle set of cardinality `N` and valid weight
vector, `systematic_resample` returns a particle set of the same cardinality
`N` drawn from the old set (every returned particle is one of the input
particles, chosen by the cumulative-weight brackets) and an exactly uniform
weight vector (`1/N` per particle). -/
theorem C4_systematic_resample (particles : List State2D) (weights : List ℚ)
    (u0 : ℚ) (hlen : weights.length = particles.length) (hne : particles ≠ [])
    (hw : ∀ x ∈ weights, 0 ≤ x) (hs : weights.sum = 1)
    (hu0 : 0 ≤ u0) (hu1 : u0 < 1 / (particles.length : ℚ)) :
    (systematic_resample particles weights u0).1.length = particles.length ∧
    (systematic_resample particles weights u0).2 =
      List.replicate particles.length ((1 : ℚ) / (particles.length : ℚ)) ∧
    ∀ p ∈ (systematic_resample particles weights u0).1, p ∈ particles := by
  have hNpos : 0 < (particles.length : ℚ) := by
    have := List.length_pos.mpr hne
    positivity
  have hdef : (systematic_resample particles weights u0).1 =
      (List.range particles.length).map (fun (j : Nat) => particles.getD
        (selectIdx (u0 + (j : ℚ) / (particles.length : ℚ)) (cumsum 0 weights))
        ⟨0, 0, 0⟩) := by
    simp only [systematic_resample, List.map_map]
    rfl
  refine ⟨?_, rfl, ?_⟩
  · rw [hdef, List.length_map, List.length_range]
  · intro p hp
    rw [hdef] at hp
    rcases List.mem_map.mp hp with ⟨j, hjmem, rfl⟩
    have hj : j < particles.length := List.mem_range.mp hjmem
    have hwne : weights ≠ [] := by
      intro hcontra
      rw [hcontra] at hlen
      exact hne (List.length_eq_zero.mp hlen.symm)
    have hjle : (j : ℚ) ≤ (particles.length : ℚ) - 1 := by
      have : (j : ℚ) + 1 ≤ (particles.length : ℚ) := by
        exact_mod_cast Nat.succ_le_of_lt hj
      linarith
    have hdiv : (j : ℚ) / (particles.length : ℚ) ≤
        ((particles.length : ℚ) - 1) / (particles.length : ℚ) := by
      gcongr
    have hone : (1 : ℚ) / (particles.length : ℚ) +
        ((particles.length : ℚ) - 1) / (particles.length : ℚ) = 1 := by
      field_simp
    have hu : u0 + (j : ℚ) / (particles.length : ℚ) < 0 + weights.sum := by
      rw [hs]
      linarith
    have hidx0 : selectIdx (u0 + (j : ℚ) / (particles.length : ℚ))
        (cumsum 0 weights) < weights.length :=
      selectIdx_lt_length 0 _ hwne hu
    exact getD_mem_of_lt _ (lt_of_lt_of_eq hidx0 hlen)

/-- Witness for C4 at a one-particle set with weight 1. -/
theorem C4_systematic_resample_witness :
    ([(1 : ℚ)].length = [(⟨0, 0, 0⟩ : State2D)].length) ∧
    (0 : ℚ) < 1 / ([(⟨0, 0, 0⟩ : State2D)].length : ℚ) ∧
    (systematic_resample [(⟨0, 0, 0⟩ : State2D)] [(1 : ℚ)] 0).1.length =
      [(⟨0, 0, 0⟩ : State2D)].length := by
  refine ⟨rfl, by norm_num, ?_⟩
  exact (C4_systematic_resample [(⟨0, 0, 0⟩ : State2D)] [(1 : ℚ)] 0 rfl
    (by simp) (by norm_num) (by norm_num) (by norm_num) (by norm_num)).1

/-- Claim C5: on a measurement-update step (`time_step` a multiple of `skip`),
if the effective sample size of the post-likelihood weight vector is at or
above `neff_thres`, the particle set and the weight vector pass through the
resampling stage unchanged: the step returns the predicted particle set and
the likelihood-produced weights without resampling. -/
theorem C5_neff_at_threshold_passthrough (particles : List State2D)
    (weights : List ℚ) (measurement : List (ℚ × ℚ))
    (linear_vel angular_vel dt : ℚ) (Q : ℚ × ℚ × ℚ) (time_step : Nat)
    (neff_thres : ℚ) (skip : Nat) (u0 : ℚ)
    (tf : List State2D → ℚ → ℚ → ℚ → ℚ × ℚ × ℚ → List State2D)
    (lf : List State2D → List (ℚ × ℚ) → List (ℚ × ℚ) → List ℚ)
    (st : State2D) (h_k : npMod time_step skip = 0)
    (h_avg : npAverage (tf particles linear_vel angular_vel dt Q) weights =
      some st)
    (h_neff : neff_thres ≤ Neff (lf (tf particles linear_vel angular_vel dt Q)
      get_landmarks measurement)) :
    localization_2d_pf particles weights measurement linear_vel angular_vel dt
      Q time_step neff_thres skip u0 tf lf =
      some (tf particles linear_vel angular_vel dt Q,
        lf (tf particles linear_vel angular_vel dt Q) get_landmarks
          measurement, st) :=
  localization_step_update_pass particles weights measurement linear_vel
    angular_vel dt Q time_step neff_thres skip u0 tf lf st h_k h_avg
    (not_lt.mpr h_neff)

/-- Witness for C5 at a concrete one-particle update step. -/
theorem C5_neff_at_threshold_passthrough_witness :
    npMod 0 100 = 0 ∧
    localization_2d_pf [(⟨0, 0, 0⟩ : State2D)] [(1 : ℚ)] [] 0 0 1 (0, 0, 0) 0
        1 100 0 (fun ps _ _ _ _ => ps) (fun _ _ _ => [1]) =
      some ([(⟨0, 0, 0⟩ : State2D)], [(1 : ℚ)], ⟨0, 0, 0⟩) := by
  refine ⟨by norm_num [npMod], ?_⟩
  exact C5_neff_at_threshold_passthrough [(⟨0, 0, 0⟩ : State2D)] [(1 : ℚ)] []
    0 0 1 (0, 0, 0) 0 1 100 0 (fun ps _ _ _ _ => ps) (fun _ _ _ => [1])
    ⟨0, 0, 0⟩ (by norm_num [npMod]) (by norm_num [npAverage])
    (by norm_num [Neff])

/-- Claim C6: if the input weight vector is non-negative and sums to 1, so is
the weight vector returned by `localization_2d_pf` (here with exact rational
arithmetic, the sum is exactly 1), in all three cases: weights carried
forward, weights replaced by the likelihood model's normalized output, and
weights reset by resampling.  The likelihood model is the spec-modelled
`likelihood_fcn_2d` with an arbitrary non-negative Gaussian kernel. -/
theorem C6_weights_invariant (particles : List State2D) (weights : List ℚ)
    (measurement : List (ℚ × ℚ)) (linear_vel angular_vel dt : ℚ)
    (Q : ℚ × ℚ × ℚ) (time_step : Nat) (neff_thres : ℚ) (skip : Nat) (u0 : ℚ)
    (tf : List State2D → ℚ → ℚ → ℚ → ℚ × ℚ × ℚ → List State2D)
    (kernel : State2D → List (ℚ × ℚ) → List (ℚ × ℚ) → ℚ)
    (out_particles : List State2D) (out_weights : List ℚ) (st : State2D)
    (hker : ∀ p lms m, 0 ≤ kernel p lms m)
    (hw : ∀ x ∈ weights, 0 ≤ x) (hs : weights.sum = 1)
    (hne : tf particles linear_vel angular_vel dt Q ≠ [])
    (h : localization_2d_pf particles weights measurement linear_vel
      angular_vel dt Q time_step neff_thres skip u0 tf
      (likelihood_fcn_2d kernel) = some (out_particles, out_weights, st)) :
    (∀ x ∈ out_weights, 0 ≤ x) ∧ out_weights.sum = 1 := by
  rcases h_avg : npAverage (tf particles linear_vel angular_vel dt Q) weights
      with _ | st'
  · rw [localization_step_none particles weights measurement linear_vel
      angular_vel dt Q time_step neff_thres skip u0 tf
      (likelihood_fcn_2d kernel) h_avg] at h
    cases h
  · have hraw_nonneg : ∀ x ∈ (tf particles linear_vel angular_vel dt Q).map
        (fun p => kernel p get_landmarks measurement), 0 ≤ x := by
      intro x hx
      rcases List.mem_map.mp hx with ⟨p, _, rfl⟩
      exact hker p get_landmarks measurement
    have hraw_ne : (tf particles linear_vel angular_vel dt Q).map
        (fun p => kernel p get_landmarks measurement) ≠ [] := by
      simpa using hne
    have hlf_nonneg : ∀ x ∈ likelihood_fcn_2d kernel
        (tf particles linear_vel angular_vel dt Q) get_landmarks measurement,
        0 ≤ x := normalizeWeights_nonneg hraw_nonneg
    have hlf_sum : (likelihood_fcn_2d kernel
        (tf particles linear_vel angular_vel dt Q) get_landmarks
        measurement).sum = 1 := normalizeWeights_sum_one hraw_nonneg hraw_ne
    have hNlen : (0 : ℚ) <
        ((tf particles linear_vel angular_vel dt Q).length : ℚ) := by
      have := List.length_pos.mpr hne
      positivity
    by_cases h_k : npMod time_step skip = 0
    · by_cases h_neff : Neff (likelihood_fcn_2d kernel
        (tf particles linear_vel angular_vel dt Q) get_landmarks measurement) <
          neff_thres
      · rw [localization_step_update_resample particles weights measurement
          linear_vel angular_vel dt Q time_step neff_thres skip u0 tf
          (likelihood_fcn_2d kernel) st' h_k h_avg h_neff] at h
        simp only [Option.some.injEq, Prod.mk.injEq] at h
        have hout : out_weights = List.replicate
            (tf particles linear_vel angular_vel dt Q).length
            ((1 : ℚ) / ((tf particles linear_vel angular_vel dt Q).length : ℚ)) :=
          h.2.1.symm
        constructor
        · intro x hx
          rw [hout] at hx
          rw [List.eq_of_mem_replicate hx]
          positivity
        · rw [hout, List.sum_replicate, nsmul_eq_mul]
          field_simp
      · rw [localization_step_update_pass particles weights measurement
          linear_vel angular_vel dt Q time_step neff_thres skip u0 tf
          (likelihood_fcn_2d kernel) st' h_k h_avg h_neff] at h
        simp only [Option.some.injEq, Prod.mk.injEq] at h
        rw [← h.2.1]
        exact ⟨hlf_nonneg, hlf_sum⟩
    · rw [localization_step_noupdate particles weights measurement linear_vel
        angular_vel dt Q time_step neff_thres skip u0 tf
        (likelihood_fcn_2d kernel) st' h_k h_avg] at h
      simp only [Option.some.injEq, Prod.mk.injEq] at h
      rw [← h.2.1]
      exact ⟨hw, hs⟩

/-- Witness for C6 at a concrete one-particle update-and-resample step. -/
theorem C6_weights_invariant_witness :
    localization_2d_pf [(⟨0, 0, 0⟩ : State2D)] [(1 : ℚ)] [] 0 0 1 (0, 0, 0) 0
        50 100 0 (fun ps _ _ _ _ => ps) (likelihood_fcn_2d (fun _ _ _ => 1)) =
      some ([(⟨0, 0, 0⟩ : State2D)], [(1 : ℚ)], ⟨0, 0, 0⟩) ∧
    ((∀ x ∈ [(1 : ℚ)], 0 ≤ x) ∧ [(1 : ℚ)].sum = 1) := by
  have h : localization_2d_pf [(⟨0, 0, 0⟩ : State2D)] [(1 : ℚ)] [] 0 0 1
      (0, 0, 0) 0 50 100 0 (fun ps _ _ _ _ => ps)
      (likelihood_fcn_2d (fun _ _ _ => 1)) =
      some ([(⟨0, 0, 0⟩ : State2D)], [(1 : ℚ)], ⟨0, 0, 0⟩) := by
    norm_num [localization_2d_pf, npAverage, npMod, Neff, likelihood_fcn_2d,
      normalizeWeights, systematic_resample, cumsum, selectIdx,
      List.range_succ]
  exact ⟨h, C6_weights_invariant [(⟨0, 0, 0⟩ : State2D)] [(1 : ℚ)] [] 0 0 1
    (0, 0, 0) 0 50 100 0 (fun ps _ _ _ _ => ps) (fun _ _ _ => 1)
    [(⟨0, 0, 0⟩ : State2D)] [(1 : ℚ)] ⟨0, 0, 0⟩ (fun _ _ _ => by norm_num)
    (by norm_num) (by norm_num) (by simp) h⟩

/-- Claim C8 (code evaluated at the failing configuration): with `skip = 0` —
an invalid configuration the spec says is rejected at first call — the step is
*not* rejected: `np.mod(time_step, 0)` evaluates to `0` in numpy (with only a
`RuntimeWarning`), so the measurement-update branch runs and the call
completes normally, here returning a full result. -/
theorem C8_skip_zero_not_rejected :
    localization_2d_pf [(⟨0, 0, 0⟩ : State2D)] [(1 : ℚ)] [] 0 0 1 (0, 0, 0) 1
        50 0 0 (fun ps _ _ _ _ => ps) (likelihood_fcn_2d (fun _ _ _ => 1)) =
      some ([(⟨0, 0, 0⟩ : State2D)], [(1 : ℚ)], ⟨0, 0, 0⟩) := by
  norm_num [localization_2d_pf, npAverage, npMod, Neff, likelihood_fcn_2d,
    normalizeWeights, systematic_resample, cumsum, selectIdx, List.range_succ]

/-- Claim C9: on a step with no measurement update (`time_step` not a multiple
of `skip`), the output of `localization_2d_pf` does not depend on the
measurement argument: two calls differing only in the measurement return
identical particle sets, weight vectors and state estimates. -/
theorem C9_measurement_noninterference (particles : List State2D)
    (weights : List ℚ) (m1 m2 : List (ℚ × ℚ))
    (linear_vel angular_vel dt : ℚ) (Q : ℚ × ℚ × ℚ) (time_step : Nat)
    (neff_thres : ℚ) (skip : Nat) (u0 : ℚ)
    (tf : List State2D → ℚ → ℚ → ℚ → ℚ × ℚ × ℚ → List State2D)
    (lf : List State2D → List (ℚ × ℚ) → List (ℚ × ℚ) → List ℚ)
    (h_k : npMod time_step skip ≠ 0) :
    localization_2d_pf particles weights m1 linear_vel angular_vel dt Q
      time_step neff_thres skip u0 tf lf =
    localization_2d_pf particles weights m2 linear_vel angular_vel dt Q
      time_step neff_thres skip u0 tf lf := by
  rcases h_avg : npAverage (tf particles linear_vel angular_vel dt Q) weights
      with _ | st
  · rw [localization_step_none particles weights m1 linear_vel angular_vel dt
      Q time_step neff_thres skip u0 tf lf h_avg,
      localization_step_none particles weights m2 linear_vel angular_vel dt
      Q time_step neff_thres skip u0 tf lf h_avg]
  · rw [localization_step_noupdate particles weights m1 linear_vel angular_vel
      dt Q time_step neff_thres skip u0 tf lf st h_k h_avg,
      localization_step_noupdate particles weights m2 linear_vel angular_vel
      dt Q time_step neff_thres skip u0 tf lf st h_k h_avg]

/-- Witness for C9 with two different measurements at a non-update step. -/
theorem C9_measurement_noninterference_witness :
    npMod 1 100 ≠ 0 ∧
    localization_2d_pf [(⟨0, 0, 0⟩ : State2D)] [(1 : ℚ)] [(1, 2)] 0 0 1
        (0, 0, 0) 1 50 100 0 (fun ps _ _ _ _ => ps) (fun _ _ _ => []) =
    localization_2d_pf [(⟨0, 0, 0⟩ : State2D)] [(1 : ℚ)] [] 0 0 1
        (0, 0, 0) 1 50 100 0 (fun ps _ _ _ _ => ps) (fun _ _ _ => []) := by
  refine ⟨by norm_num [npMod], ?_⟩
  exact C9_measurement_noninterference [(⟨0, 0, 0⟩ : State2D)] [(1 : ℚ)]
    [(1, 2)] [] 0 0 1 (0, 0, 0) 1 50 100 0 (fun ps _ _ _ _ => ps)
    (fun _ _ _ => []) (by norm_num [npMod])

/-- Claim C10: `localization_2d_pf` has an undocumented precondition that the
input weights have nonzero sum: when the input weight vector sums to zero
(e.g. an all-zero vector) the step fails at the weighted-average computation
(`np.average` raises `ZeroDivisionError`; here the result is `none`) instead
of returning a state estimate. -/
theorem C10_zero_weight_sum_fails (particles : List State2D)
    (weights : List ℚ) (measurement : List (ℚ × ℚ))
    (linear_vel angular_vel dt : ℚ) (Q : ℚ × ℚ × ℚ) (time_step : Nat)
    (neff_thres : ℚ) (skip : Nat) (u0 : ℚ)
    (tf : List State2D → ℚ → ℚ → ℚ → ℚ × ℚ × ℚ → List State2D)
    (lf : List State2D → List (ℚ × ℚ) → List (ℚ × ℚ) → List ℚ)
    (hs : weights.sum = 0) :
    localization_2d_pf particles weights measurement linear_vel angular_vel dt
      Q time_step neff_thres skip u0 tf lf = none :=
  localization_step_none particles weights measurement linear_vel angular_vel
    dt Q time_step neff_thres skip u0 tf lf
    (npAverage_eq_none_of_sum_zero _ hs)

/-- Witness for C10 at the all-zero weight vector. -/
theorem C10_zero_weight_sum_fails_witness :
    [(0 : ℚ), 0].sum = 0 ∧
    localization_2d_pf [(⟨0, 0, 0⟩ : State2D), ⟨1, 1, 1⟩] [(0 : ℚ), 0] [] 0 0
        1 (0, 0, 0) 1 50 100 0 (fun ps _ _ _ _ => ps) (fun _ _ _ => []) =
      none := by
  refine ⟨by norm_num, ?_⟩
  exact C10_zero_weight_sum_fails [(⟨0, 0, 0⟩ : State2D), ⟨1, 1, 1⟩]
    [(0 : ℚ), 0] [] 0 0 1 (0, 0, 0) 1 50 100 0 (fun ps _ _ _ _ => ps)
    (fun _ _ _ => []) (by norm_num)

end PF2D
